import Mathlib

/-!
Verification development for the `panex` terminal multiplexer.

The definitions below are a shallow embedding of the TypeScript sources:
  * `src/cli.ts`                 — CLI name handling (raw names, defaulting, dedup)
  * `src/process-manager.ts`     — the `ProcessManager` class and its operations
  * `src/components/App.tsx`     — the `useInput` handler (focus-mode key routing)
  * `terminal-buffer.ts`         — the `TerminalBuffer` wrapper over a persistent
                                   terminal-emulator parser

JavaScript `Map<string, T>` objects are embedded as insertion-ordered association
lists.  The identity of the `managed` closure objects created by each call to
`ProcessManager.start` is made explicit by allocating them into a heap list; the
heap index of a managed object plays the role of the spec's "generation".
-/

namespace Panex

/-! ### Association lists: the embedding of JavaScript `Map<string, A>` -/

/-- `Map.get`: first entry with the given key. -/
def lookupTable {A : Type} : List (String × A) → String → Option A
  | [], _ => none
  | (k', v') :: rest, k => if k' = k then some v' else lookupTable rest k

/-- `Map.set`: replace the value in place if the key exists (JS maps keep the
original insertion position), otherwise append the new entry at the end. -/
def setTable {A : Type} : List (String × A) → String → A → List (String × A)
  | [], k, v => [(k, v)]
  | (k', v') :: rest, k, v =>
    if k' = k then (k, v) :: rest else (k', v') :: setTable rest k v

/-! ### CLI name handling (`src/cli.ts`, `program.action`) -/

/-- Default display name for the command at 0-based position `i`:
the code's template literal `proc{i + 1}` (written with `++` here because the
source builds it by string interpolation). -/
def defaultName (i : Nat) : String := "proc" ++ toString (i + 1)

/-- Splitter loop for JS `s.split(',')`: `acc` holds the current field in
reverse. Splitting the empty string yields `[""]`, as in JS. -/
def splitCommaGo : List Char → List Char → List String
  | acc, [] => [String.mk acc.reverse]
  | acc, c :: rest =>
    if c = ',' then String.mk acc.reverse :: splitCommaGo [] rest
    else splitCommaGo (c :: acc) rest

/-- JS `s.split(',')`. -/
def splitComma (s : String) : List String := splitCommaGo [] s.data

/-- `rawNames`: `options.names?.split(',') ?? commands.map((_, i) => proc{i+1})`. -/
def rawNamesOf : Option String → List String → List String
  | some s, _ => splitComma s
  | none, commands => (List.range commands.length).map defaultName

/-- Loop body of the `rawNames.map((name, i) => ...)` deduplication in
`src/cli.ts`: `usedNames` is the `Map<string, number>` of use counts, `i` the
current index. An empty raw name falls back to the default (`name || proc{i+1}`),
a repeated base name gets the `-{count+1}` suffix. -/
def dedupeGo : List (String × Nat) → Nat → List String → List String
  | _, _, [] => []
  | usedNames, i, name :: rest =>
    let baseName := if name = "" then defaultName i else name
    let count := (lookupTable usedNames baseName).getD 0
    let usedNames' := setTable usedNames baseName (count + 1)
    let display := if count = 0 then baseName else baseName ++ "-" ++ toString (count + 1)
    display :: dedupeGo usedNames' (i + 1) rest

/-- The `names` array computed by `src/cli.ts` from the raw `-n` list. -/
def dedupeNames (rawNames : List String) : List String := dedupeGo [] 0 rawNames

/-- JavaScript array indexing as used in `commands.map((cmd, i) => [names[i], ...])`:
an out-of-range index yields `undefined`, which `Object.fromEntries` coerces to
the property key `"undefined"`. -/
def jsKey (names : List String) (i : Nat) : String := (names.get? i).getD "undefined"

/-- `List.map` with the element index, mirroring JS `array.map((x, i) => ...)`. -/
def mapWithIndex {A B : Type} (f : Nat → A → B) : Nat → List A → List B
  | _, [] => []
  | i, a :: rest => f i a :: mapWithIndex f (i + 1) rest

/-- The `(display name, shell command)` entries built by `src/cli.ts` for
`config.procs` (before `Object.fromEntries` collapses duplicate keys). -/
def procEntries (namesOpt : Option String) (commands : List String) : List (String × String) :=
  let names := dedupeNames (rawNamesOf namesOpt commands)
  mapWithIndex (fun i cmd => (jsKey names i, cmd)) 0 commands

/-! ### Process manager (`src/process-manager.ts`) -/

/-- `ProcessConfig` from `src/types.ts` (fields irrelevant to the claims —
`cwd`, `env` — are omitted; absent `autoRestart` is modelled as `false`,
matching how `if (managed.config.autoRestart)` treats `undefined`). -/
structure ProcessConfig where
  shell : Option String
  cmd : Option (List String)
  autoRestart : Bool
deriving DecidableEq, Repr

/-- `ManagedProcess.status`: `'running' | 'stopped' | 'error'`. -/
inductive PStatus
  | running
  | stopped
  | error
deriving DecidableEq, Repr

/-- One `managed` object created by a call to `ProcessManager.start`.
`ptyLive` is `true` exactly when the JS field `pty` is non-null. -/
structure MPState where
  name : String
  config : ProcessConfig
  ptyLive : Bool
  status : PStatus
  output : List String
  exitCode : Option Int
deriving DecidableEq, Repr

/-- A pending `setTimeout(() => this.start(name, managed.config), 1000)` call
registered by the `proc.exited` handler.  `gen` is the heap index of the
`managed` closure whose `config` the callback captured. -/
structure RestartTimer where
  name : String
  gen : Nat
  delayMs : Nat
deriving DecidableEq, Repr

/-- Side effects the manager performs on PTY handles / the OS.  These calls do
not change any manager-visible state; they are recorded as a trace so ordering
properties (restart-all) and no-op properties (write/resize) can be stated. -/
inductive PtyAction
  | killPty (name : String)
  | spawn (name : String)
  | writePty (name : String) (data : String)
  | resizePty (name : String) (cols rows : Nat)
deriving DecidableEq, Repr

/-- The manager state.  `heap` holds every `managed` object ever allocated by
`start` (JS closure identity made explicit: the terminal-data callback and the
`proc.exited` handler close over one particular heap index).  `table` is the
`processes: Map<string, ManagedProcess>` with values replaced by heap indices.
`timers` records scheduled auto-restart callbacks. -/
structure MgrState where
  heap : List MPState
  table : List (String × Nat)
  timers : List RestartTimer
deriving DecidableEq, Repr

/-- A freshly constructed `ProcessManager` (its `processes` map starts empty;
`new ProcessManager(procs)` only stores the config record). -/
def mgrInit : MgrState := { heap := [], table := [], timers := [] }

/-- `private maxOutputLines = 10000` in `src/process-manager.ts`. -/
def MAX_OUTPUT_LINES : Nat := 10000

/-- Body of the terminal `data` callback:
`managed.output.push(str); if (length > max) output = output.slice(-max)`.
`slice(-n)` keeps the last `n` entries, i.e. drops from the front. -/
def pushTrim (output : List String) (chunk : String) : List String :=
  let o := output ++ [chunk]
  if o.length > MAX_OUTPUT_LINES then o.drop (o.length - MAX_OUTPUT_LINES) else o

/-- `ProcessManager.start(name, config)` (success path of the `try` block):
kill any existing handle, allocate a fresh `managed` object (heap index
`st.heap.length` — this is the new "generation"), register it in the map, spawn
the PTY.  Returns the new state and the PTY-level actions performed. -/
def mgrStart (st : MgrState) (name : String) (config : ProcessConfig) :
    MgrState × List PtyAction :=
  let aKill : List PtyAction :=
    match lookupTable st.table name with
    | some i =>
      match st.heap[i]? with
      | some m => if m.ptyLive then [.killPty name] else []
      | none => []
    | none => []
  let g := st.heap.length
  let managed : MPState :=
    { name := name, config := config, ptyLive := true, status := .running,
      output := [], exitCode := none }
  ({ st with heap := st.heap ++ [managed], table := setTable st.table name g },
   aKill ++ [.spawn name])

/-- Delivery of a terminal `data` event produced by the reader of the instance
allocated at heap index `g`.  The callback closes over that `managed` object
directly — it never consults the `processes` map, so a stale reader keeps
writing into its own (no longer mapped) object. -/
def outputEvent (st : MgrState) (g : Nat) (data : String) : MgrState :=
  match st.heap[g]? with
  | none => st
  | some m => { st with heap := st.heap.set g { m with output := pushTrim m.output data } }

/-- Delivery of the `proc.exited` continuation for the instance at heap index
`g`: set status/exitCode, null the pty, and — when `managed.config.autoRestart`
and the exit code is non-zero — schedule `this.start(name, managed.config)`
after 1000 ms.  Nothing here cancels on a prior user `kill`. -/
def exitEvent (st : MgrState) (g : Nat) (code : Int) : MgrState :=
  match st.heap[g]? with
  | none => st
  | some m =>
    { st with
      heap := st.heap.set g
        { m with status := if code = 0 then .stopped else .error,
                 exitCode := some code, ptyLive := false },
      timers :=
        if m.config.autoRestart && code != 0 then
          st.timers ++ [{ name := m.name, gen := g, delayMs := 1000 }]
        else st.timers }

/-- A scheduled auto-restart timer firing: the closure runs
`this.start(name, managed.config)` with the captured `managed` object's config. -/
def fireTimer (st : MgrState) (t : RestartTimer) : MgrState × List PtyAction :=
  match st.heap[t.gen]? with
  | some m => mgrStart st t.name m.config
  | none => (st, [])

/-- `ProcessManager.kill(name)`: `proc?.pty?.kill()` — a PTY-level action only;
no manager state (map, outputs, timers) is touched. -/
def mgrKill (st : MgrState) (name : String) : MgrState × List PtyAction :=
  match lookupTable st.table name with
  | some i =>
    match st.heap[i]? with
    | some m => if m.ptyLive then (st, [.killPty name]) else (st, [])
    | none => (st, [])
  | none => (st, [])

/-- `ProcessManager.restart(name)`: kill the existing handle, clear
`proc.output`, then call `start` (which, because the killed handle is still
non-null in the map entry, kills it a second time before spawning). -/
def mgrRestart (st : MgrState) (name : String) : MgrState × List PtyAction :=
  match lookupTable st.table name with
  | none => (st, [])
  | some i =>
    match st.heap[i]? with
    | none => (st, [])
    | some m =>
      let a1 : List PtyAction := if m.ptyLive then [.killPty name] else []
      let st1 := { st with heap := st.heap.set i { m with output := [] } }
      let r := mgrStart st1 name m.config
      (r.1, a1 ++ r.2)

/-- The loop of `restartAll`: `for (const name of this.processes.keys()) this.restart(name)`. -/
def restartAllGo : MgrState → List String → MgrState × List PtyAction
  | st, [] => (st, [])
  | st, n :: rest =>
    let r1 := mgrRestart st n
    let r2 := restartAllGo r1.1 rest
    (r2.1, r1.2 ++ r2.2)

/-- `ProcessManager.restartAll()`. -/
def restartAll (st : MgrState) : MgrState × List PtyAction :=
  restartAllGo st (st.table.map Prod.fst)

/-- `ProcessManager.write(name, data)`: `if (proc?.pty) proc.pty.write(data)`. -/
def mgrWrite (st : MgrState) (name : String) (data : String) : MgrState × List PtyAction :=
  match lookupTable st.table name with
  | some i =>
    match st.heap[i]? with
    | some m => if m.ptyLive then (st, [.writePty name data]) else (st, [])
    | none => (st, [])
  | none => (st, [])

/-- `ProcessManager.resize(name, cols, rows)`: `if (proc?.pty) proc.pty.resize(...)`. -/
def mgrResize (st : MgrState) (name : String) (cols rows : Nat) : MgrState × List PtyAction :=
  match lookupTable st.table name with
  | some i =>
    match st.heap[i]? with
    | some m => if m.ptyLive then (st, [.resizePty name cols rows]) else (st, [])
    | none => (st, [])
  | none => (st, [])

/-- `ProcessManager.getOutput(name)`: `processes.get(name)?.output.join('') ?? ''`. -/
def getOutput (st : MgrState) (name : String) : String :=
  match lookupTable st.table name with
  | some i =>
    match st.heap[i]? with
    | some m => String.join m.output
    | none => ""
  | none => ""

/-- Status accessor (`useProcessManager.getStatus`: `proc?.status ?? 'stopped'`). -/
def getStatus (st : MgrState) (name : String) : PStatus :=
  match lookupTable st.table name with
  | some i =>
    match st.heap[i]? with
    | some m => m.status
    | none => .stopped
  | none => .stopped

/-! ### Terminal emulator (`terminal-buffer.ts`)

`TerminalBuffer` (src/unnamed/part_005) holds one persistent `Terminal` object
created in its constructor; `TerminalBuffer.write` delegates to
`this.terminal.write(data)`.  The terminal object itself lives in the external
`@xterm/headless` dependency (and, for the native variant, in `panex-rs`,
which is not part of this repository's sources), so its internals are modelled
from the spec here. -/

/-- Modelled from the spec: a screen cell `Cell { glyph, style }` (§3 data
model).  The style is kept as the raw CSI parameter buffer of the last SGR
dispatch, which records the full SGR information without committing to a
particular colour decoding. -/
structure Cell where
  glyph : Char
  style : List Char
deriving DecidableEq, Repr

/-- Modelled from the spec: the persistent VTE parser state (`ground`,
`escape`, CSI parameter collection — §3 `parser_state`). -/
inductive VteState
  | ground
  | escapeSeen
  | csiCollect (params : List Char)
deriving DecidableEq, Repr

/-- Modelled from the spec: the terminal screen model (§3 Terminal Buffer)
holding the line grid, cursor, current SGR state, the persistent parser state
and the queued capability-query replies. -/
structure TermState where
  lines : List (List Cell)
  cursorRow : Nat
  cursorCol : Nat
  currentStyle : List Char
  parserState : VteState
  pendingResponses : List String
deriving DecidableEq, Repr

/-- Pad a list on the right with copies of `x` until it has length `n`. -/
def padTo {A : Type} (l : List A) (n : Nat) (x : A) : List A :=
  l ++ List.replicate (n - l.length) x

/-- Place a cell at `(r, c)`, padding the grid with empty lines / blank cells
as needed (the spec pads `lines` as the cursor moves). -/
def putCell (lines : List (List Cell)) (r c : Nat) (cell : Cell) : List (List Cell) :=
  let ls := padTo lines (r + 1) []
  let line := padTo (ls.getD r []) (c + 1) { glyph := ' ', style := [] }
  ls.set r (line.set c cell)

/-- Modelled from the spec: one byte of the persistent VTE parse (§4.A).
Ground state handles ESC / LF / CR and printable glyphs; `escape` takes `[` to
CSI collection; CSI collects digits and `;`, then dispatches on the final byte
(SGR `m` updates the style; the DA/CPR/DSR capability queries push replies;
every other CSI is consumed and ignored, never leaking glyphs). -/
def termStep (st : TermState) (ch : Char) : TermState :=
  match st.parserState with
  | .ground =>
    if ch = '\x1b' then { st with parserState := .escapeSeen }
    else if ch = '\n' then
      { st with cursorRow := st.cursorRow + 1, cursorCol := 0,
                lines := padTo st.lines (st.cursorRow + 2) [] }
    else if ch = '\r' then { st with cursorCol := 0 }
    else
      { st with lines := putCell st.lines st.cursorRow st.cursorCol
                  { glyph := ch, style := st.currentStyle },
                cursorCol := st.cursorCol + 1 }
  | .escapeSeen =>
    if ch = '[' then { st with parserState := .csiCollect [] }
    else { st with parserState := .ground }
  | .csiCollect ps =>
    if ch.isDigit || ch = ';' then { st with parserState := .csiCollect (ps ++ [ch]) }
    else
      let st' := { st with parserState := .ground }
      if ch = 'm' then { st' with currentStyle := ps }
      else if ch = 'c' && (ps = [] || ps = ['0']) then
        { st' with pendingResponses := st.pendingResponses ++ ["\x1b[?1;2c"] }
      else if ch = 'n' && ps = ['6'] then
        { st' with pendingResponses := st.pendingResponses ++
            ["\x1b[" ++ toString (st.cursorRow + 1) ++ ";" ++ toString (st.cursorCol + 1) ++ "R"] }
      else if ch = 'n' && ps = ['5'] then
        { st' with pendingResponses := st.pendingResponses ++ ["\x1b[0n"] }
      else st'

/-- `Terminal.write(data)`: feed every byte of the chunk through the single
persistent parser (the parser object survives across calls). -/
def termWrite (st : TermState) (data : String) : TermState :=
  data.data.foldl termStep st

/-- The `TerminalBuffer` class: construction stores `cols`/`rows` and one
`Terminal` created once; all writes go to that same terminal. -/
structure TerminalBuffer where
  cols : Nat
  rows : Nat
  terminal : TermState
deriving DecidableEq, Repr

/-- `TerminalBuffer.write(data)`: `this.terminal.write(data)` — delegation to
the one persistent terminal (no fresh parser per call). -/
def TerminalBuffer.write (tb : TerminalBuffer) (data : String) : TerminalBuffer :=
  { tb with terminal := termWrite tb.terminal data }

/-! ### App input handler (`src/components/App.tsx`, `useInput`) -/

/-- The key-flag record Ink passes to `useInput` (the `return` field is
renamed `ret`; `return` is a Lean keyword). -/
structure InkKey where
  upArrow : Bool
  downArrow : Bool
  leftArrow : Bool
  rightArrow : Bool
  pageUp : Bool
  pageDown : Bool
  ret : Bool
  escape : Bool
  ctrl : Bool
  shift : Bool
  tab : Bool
  meta : Bool
deriving DecidableEq, Repr

/-- A key with every flag cleared (a plain printable keystroke). -/
def noKey : InkKey :=
  { upArrow := false, downArrow := false, leftArrow := false, rightArrow := false,
    pageUp := false, pageDown := false, ret := false, escape := false,
    ctrl := false, shift := false, tab := false, meta := false }

/-- `config.settings.noShiftTab`: `true` (all processes) or a list of names. -/
inductive NoShiftTabSetting
  | all
  | listed (names : List String)
deriving DecidableEq, Repr

/-- `isShiftTabDisabled(name)` from `App.tsx`: `true` disables for all,
an array disables for the listed names, otherwise `false`. -/
def isShiftTabDisabled (setting : Option NoShiftTabSetting) (name : String) : Bool :=
  match setting with
  | some .all => true
  | some (.listed l) => l.contains name
  | none => false

/-! The SGR-mouse-report filter: `input.replace(/\x1b?\[<\d+;\d+;\d+[Mm]/g, '')`.
The regex is embedded as a leftmost-match scanner over the character list;
note the leading `\x1b` is *optional* (`\x1b?`) in the source pattern. -/

/-- Match `\d+` followed by the separator `sep`; returns the remainder.
Greedy digit matching is exact here because the separators (`;`, `M`, `m`)
are not digits. -/
def digitsThen (sep : Char) (l : List Char) : Option (List Char) :=
  if (l.takeWhile Char.isDigit).isEmpty then none
  else
    match l.dropWhile Char.isDigit with
    | c :: rest => if c = sep then some rest else none
    | [] => none

/-- Match `\d+[Mm]`; returns the remainder. -/
def digitsThenMm (l : List Char) : Option (List Char) :=
  if (l.takeWhile Char.isDigit).isEmpty then none
  else
    match l.dropWhile Char.isDigit with
    | c :: rest => if c = 'M' || c = 'm' then some rest else none
    | [] => none

/-- Match the sub-pattern `\[<\d+;\d+;\d+[Mm]` at the head of the list. -/
def matchCore : List Char → Option (List Char)
  | '[' :: '<' :: rest =>
    (digitsThen ';' rest).bind fun r1 => (digitsThen ';' r1).bind fun r2 => digitsThenMm r2
  | _ => none

/-- Match the full pattern `\x1b?\[<\d+;\d+;\d+[Mm]` at the head of the list:
the optional `\x1b?` first tries to consume an ESC (regex greediness), then
backtracks to the empty alternative. -/
def matchMouse (l : List Char) : Option (List Char) :=
  match l with
  | '\x1b' :: rest => (matchCore rest).orElse fun _ => matchCore l
  | _ => matchCore l

/-- Scanner for `String.replace(pattern, '')` with a global regex: at each
position try the pattern; on a match drop it and continue after it, otherwise
keep the character.  `fuel` starts at the list length; every step consumes at
least one character (a match consumes at least `[<d;d;dM`), so the fuel never
runs out on the initial call. -/
def removeMouseAux : Nat → List Char → List Char
  | 0, l => l
  | _ + 1, [] => []
  | fuel + 1, c :: rest =>
    match matchMouse (c :: rest) with
    | some r => removeMouseAux fuel r
    | none => c :: removeMouseAux fuel rest

/-- `input.replace(/\x1b?\[<\d+;\d+;\d+[Mm]/g, '')` from `App.tsx`. -/
def removeMouse (s : String) : String := String.mk (removeMouseAux s.data.length s.data)

/-- Modelled from the claim's words, for comparison with `removeMouse`: the
same removal but with a *mandatory* leading `\x1b` (the claim describes the
pattern as `\x1b[<button;x;y` followed by `M` or `m`). -/
def matchMouseSpec : List Char → Option (List Char)
  | '\x1b' :: rest => matchCore rest
  | _ => none

/-- Scanner for the claim's mandatory-ESC variant of the filter. -/
def removeMouseSpecAux : Nat → List Char → List Char
  | 0, l => l
  | _ + 1, [] => []
  | fuel + 1, c :: rest =>
    match matchMouseSpec (c :: rest) with
    | some r => removeMouseSpecAux fuel r
    | none => c :: removeMouseSpecAux fuel rest

/-- The claim's described filter: remove every `\x1b[<d;d;d[Mm]` match
(leading ESC required). -/
def removeMouseSpec (s : String) : String :=
  String.mk (removeMouseSpecAux s.data.length s.data)

/-- The externally observable result of one `useInput` callback invocation. -/
inductive AppAction
  | closeHelp
  | quitApp
  | exitFocusMode
  | writeToPty (name : String) (data : String)
  | browseMode
  | nop
deriving DecidableEq, Repr

/-- The `useInput` handler of `App.tsx`.  The browse-mode tail (selection,
restart, kill, scrolling — lines 249–327) is collapsed into the single
`browseMode` action because no claim concerns it; the help, Ctrl-C and the
whole focus-mode branch (lines 179–247) are embedded faithfully. -/
def appUseInput (showHelp : Bool) (focusMode : Bool)
    (settings : Option NoShiftTabSetting) (names : List String) (selected : Nat)
    (input : String) (key : InkKey) : AppAction :=
  if showHelp then .closeHelp
  else if key.ctrl && input = "c" then .quitApp
  else if focusMode then
    match names[selected]? with
    | none => .nop
    | some name =>
      if key.escape then .exitFocusMode
      else if key.shift && key.tab && !(isShiftTabDisabled settings name) then .exitFocusMode
      else if key.ret then .writeToPty name "\r"
      else if key.upArrow then .writeToPty name "\x1b[A"
      else if key.downArrow then .writeToPty name "\x1b[B"
      else if key.leftArrow then .writeToPty name "\x1b[D"
      else if key.rightArrow then .writeToPty name "\x1b[C"
      else if input != "" && !key.ctrl && !key.meta then
        let filtered := removeMouse input
        if filtered != "" then .writeToPty name filtered else .nop
      else .nop
  else .browseMode

/-! ### Concrete fixtures used by counterexamples and witnesses -/

/-- A plain process config without auto-restart. -/
def cfg0 : ProcessConfig := { shell := some "cmd", cmd := none, autoRestart := false }

/-- A process config with `autoRestart: true`. -/
def cfgAR : ProcessConfig := { shell := some "cmd", cmd := none, autoRestart := true }

/-- A 2001-character output chunk. -/
def bigChunk : String := String.mk (List.replicate 2001 'a')

/-- A manager with two started processes `a` and `b`. -/
def twoProcs : MgrState := (mgrStart (mgrStart mgrInit "a" cfg0).1 "b" cfg0).1

/-- Recogniser for kill actions in a PTY action trace. -/
def isKillAct : PtyAction → Bool
  | .killPty _ => true
  | _ => false

/-- Recogniser for spawn actions in a PTY action trace. -/
def isSpawnAct : PtyAction → Bool
  | .spawn _ => true
  | _ => false

/-- A trace has a kill-phase strictly before its start-phase when no kill
occurs at or after the first spawn. -/
def killPhaseFirst (l : List PtyAction) : Bool :=
  (l.dropWhile fun a => !isSpawnAct a).all fun a => !isKillAct a

/-! ### Helper lemmas -/

theorem lookupTable_setTable_self {A : Type} (t : List (String × A)) (k : String) (v : A) :
    lookupTable (setTable t k v) k = some v := by
  induction t with
  | nil => simp [setTable, lookupTable]
  | cons e rest ih =>
    by_cases h : e.1 = k
    · simp [setTable, h, lookupTable]
    · simp only [setTable, lookupTable]
      rw [if_neg h, lookupTable, if_neg h]
      exact ih

theorem mgrKill_fst (st : MgrState) (n : String) : (mgrKill st n).1 = st := by
  unfold mgrKill
  cases hl : lookupTable st.table n with
  | none => rfl
  | some i =>
    cases hh : st.heap[i]? with
    | none => simp [hh]
    | some m => by_cases h : m.ptyLive <;> simp [hh, h]

theorem getOutput_outputEvent_ne (st : MgrState) (g i : Nat) (d : String) (p : String)
    (hl : lookupTable st.table p = some i) (hne : g ≠ i) :
    getOutput (outputEvent st g d) p = getOutput st p := by
  unfold outputEvent
  cases hg : st.heap[g]? with
  | none => rfl
  | some m => simp [getOutput, hl, List.getElem?_set_ne hne]

theorem getOutput_exitEvent (st : MgrState) (g : Nat) (c : Int) (p : String) :
    getOutput (exitEvent st g c) p = getOutput st p := by
  unfold exitEvent
  cases hg : st.heap[g]? with
  | none => rfl
  | some m =>
    unfold getOutput
    cases hl : lookupTable st.table p with
    | none => simp
    | some i =>
      by_cases hgi : g = i
      · subst hgi
        have hlt : g < st.heap.length := (List.getElem?_eq_some.mp hg).1
        simp [List.getElem?_set_eq_of_lt _ hlt, hg]
      · simp [List.getElem?_set_ne hgi]

theorem mgrStart_heap_length (st : MgrState) (n : String) (c : ProcessConfig) :
    (mgrStart st n c).1.heap.length = st.heap.length + 1 := by
  simp [mgrStart]

theorem mgrStart_table (st : MgrState) (n : String) (c : ProcessConfig) :
    (mgrStart st n c).1.table = setTable st.table n st.heap.length := rfl

/-! ### Claim theorems -/

/-- C1: after the operation sequence `start(p)`, `kill(p)`, `start(p)`, the
delivery of an output event or an exit event produced by the first instance's
reader (the `managed` closure allocated by the first `start`, heap index
`st0.heap.length`) leaves the output observable via `getOutput` for the
restarted second instance unchanged: the stale event writes only into the
no-longer-mapped first closure. -/
theorem C1_stale_events_do_not_change_output (st0 : MgrState) (p : String)
    (cfg cfg2 : ProcessConfig) (data : String) (code : Int) :
    getOutput (outputEvent (mgrStart (mgrKill (mgrStart st0 p cfg).1 p).1 p cfg2).1
        st0.heap.length data) p
      = getOutput (mgrStart (mgrKill (mgrStart st0 p cfg).1 p).1 p cfg2).1 p ∧
    getOutput (exitEvent (mgrStart (mgrKill (mgrStart st0 p cfg).1 p).1 p cfg2).1
        st0.heap.length code) p
      = getOutput (mgrStart (mgrKill (mgrStart st0 p cfg).1 p).1 p cfg2).1 p := by
  rw [mgrKill_fst (mgrStart st0 p cfg).1 p]
  constructor
  · apply getOutput_outputEvent_ne _ _ (st0.heap.length + 1)
    · rw [mgrStart_table, lookupTable_setTable_self, mgrStart_heap_length]
    · omega
  · exact getOutput_exitEvent _ _ _ _

/-- C2: the terminal buffer's parser is one persistent object, so writing `X`
then `Y` yields exactly the same buffer as writing `X ++ Y` in one call — in
particular an escape sequence split across the two writes parses identically
to the unsplit form. -/
theorem C2_write_then_write_eq_write_append (tb : TerminalBuffer) (X Y : String) :
    (tb.write X).write Y = tb.write (X ++ Y) := by
  simp only [TerminalBuffer.write, termWrite]
  rw [show (X ++ Y).data = X.data ++ Y.data from rfl, List.foldl_append]

/-- C4: the suffix-deduplication in `src/cli.ts` does not guarantee unique
display names — on the raw name list `a, a-2, a` the third entry is renamed to
`a-2`, which collides with the second entry. -/
theorem C4_dedupe_produces_duplicate :
    dedupeNames ["a", "a-2", "a"] = ["a", "a-2", "a-2"] ∧
    ¬ (dedupeNames ["a", "a-2", "a"]).Nodup := by decide

/-- C5: with fewer `-n` names than commands the surplus command does not get
the default `proc{i+1}` name: JS indexing past the end of the names array
yields `undefined`, which becomes the property key `"undefined"` (first
conjunct).  The empty-name case does default correctly (second conjunct). -/
theorem C5_missing_name_becomes_undefined :
    procEntries (some "a") ["cmd1", "cmd2"] = [("a", "cmd1"), ("undefined", "cmd2")] ∧
    procEntries (some ",b") ["cmd1", "cmd2"] = [("proc1", "cmd1"), ("b", "cmd2")] ∧
    jsKey (dedupeNames (rawNamesOf (some "a") ["cmd1", "cmd2"])) 1 ≠ defaultName 1 := by
  decide

/-- C9: `write` and `resize` on a process with no live PTY handle (or on a
name absent from the map) are silent no-ops: no error, no state change, and no
PTY-level action is performed. -/
theorem C9_write_resize_noop_without_pty (st : MgrState) (name data : String)
    (cols rows : Nat)
    (h : ∀ i, lookupTable st.table name = some i →
         ∀ m, st.heap[i]? = some m → m.ptyLive = false) :
    mgrWrite st name data = (st, []) ∧ mgrResize st name cols rows = (st, []) := by
  constructor
  · unfold mgrWrite
    cases hl : lookupTable st.table name with
    | none => rfl
    | some i =>
      cases hh : st.heap[i]? with
      | none => simp [hh]
      | some m => simp [hh, h i hl m hh]
  · unfold mgrResize
    cases hl : lookupTable st.table name with
    | none => rfl
    | some i =>
      cases hh : st.heap[i]? with
      | none => simp [hh]
      | some m => simp [hh, h i hl m hh]

/-- C9 witness: on the freshly built manager (process `x` absent) `write` and
`resize` do nothing. -/
theorem C9_witness :
    mgrWrite mgrInit "x" "data" = (mgrInit, []) ∧
    mgrResize mgrInit "x" 80 24 = (mgrInit, []) :=
  C9_write_resize_noop_without_pty mgrInit "x" "data" 80 24
    (fun i hi => by simp [mgrInit, lookupTable] at hi)

/-! C3: the entry-count bound and eviction direction of the output buffer. -/

theorem pushTrim_eq_of_gt (out : List String) (c : String)
    (h : (out ++ [c]).length > MAX_OUTPUT_LINES) :
    pushTrim out c = (out ++ [c]).drop ((out ++ [c]).length - MAX_OUTPUT_LINES) := by
  simp only [pushTrim]
  rw [if_pos h]

theorem pushTrim_eq_of_le (out : List String) (c : String)
    (h : ¬ (out ++ [c]).length > MAX_OUTPUT_LINES) :
    pushTrim out c = out ++ [c] := by
  simp only [pushTrim]
  rw [if_neg h]

theorem pushTrim_length_le (out : List String) (c : String) :
    (pushTrim out c).length ≤ MAX_OUTPUT_LINES := by
  by_cases h : (out ++ [c]).length > MAX_OUTPUT_LINES
  · rw [pushTrim_eq_of_gt out c h, List.length_drop]
    omega
  · rw [pushTrim_eq_of_le out c h]
    omega

theorem pushTrim_suffix (out : List String) (c : String) :
    pushTrim out c <:+ out ++ [c] := by
  by_cases h : (out ++ [c]).length > MAX_OUTPUT_LINES
  · rw [pushTrim_eq_of_gt out c h]
    exact List.drop_suffix _ _
  · rw [pushTrim_eq_of_le out c h]

/-- Every allocated `managed` object's output array holds at most
`MAX_OUTPUT_LINES` entries. -/
def outputBounded (st : MgrState) : Prop :=
  ∀ m ∈ st.heap, m.output.length ≤ MAX_OUTPUT_LINES

theorem outputBounded_outputEvent (st : MgrState) (g : Nat) (d : String)
    (h : outputBounded st) : outputBounded (outputEvent st g d) := by
  unfold outputEvent
  cases hg : st.heap[g]? with
  | none => exact h
  | some m =>
    intro x hx
    rcases List.mem_or_eq_of_mem_set hx with hx' | rfl
    · exact h x hx'
    · exact pushTrim_length_le _ _

/-- C3 (amended): after delivering any sequence of output chunks, every
process's output buffer still holds at most `MAX_OUTPUT_LINES = 10000`
entries, and each single push evicts only from the front (the trimmed buffer
is a suffix of `output ++ [chunk]`).  No per-entry width cap exists — see the
counterexample for the 2,000-cell part of the original claim. -/
theorem C3_scrollback_cap_and_fifo (st : MgrState) (events : List (Nat × String))
    (h : outputBounded st) :
    outputBounded (events.foldl (fun s e => outputEvent s e.1 e.2) st) ∧
    ∀ out c, pushTrim out c <:+ out ++ [c] := by
  constructor
  · induction events generalizing st with
    | nil => exact h
    | cons e rest ih => exact ih _ (outputBounded_outputEvent _ _ _ h)
  · exact fun out c => pushTrim_suffix out c

/-- C3 witness: delivering one chunk to a fresh manager keeps the bound. -/
theorem C3_witness :
    outputBounded mgrInit ∧
    (outputBounded ([((0 : Nat), "hello")].foldl (fun s e => outputEvent s e.1 e.2) mgrInit) ∧
     ∀ out c, pushTrim out c <:+ out ++ [c]) :=
  have h0 : outputBounded mgrInit := fun m hm => by simp [mgrInit] at hm
  ⟨h0, C3_scrollback_cap_and_fifo mgrInit [((0 : Nat), "hello")] h0⟩

/-- C3 counterexample: the code enforces no 2,000-cell line cap — a single
2,001-character chunk is buffered verbatim as one entry. -/
theorem C3_no_line_width_cap :
    (outputEvent (mgrStart mgrInit "p" cfg0).1 0 bigChunk).heap.map MPState.output
      = [[bigChunk]] ∧
    2000 < bigChunk.length := by
  constructor
  · rfl
  · show 2000 < (List.replicate 2001 'a').length
    rw [List.length_replicate]
    omega

/-! C6: Esc / Shift-Tab handling in focus mode. -/

/-- C6 counterexample: there is no passthrough decorator — even for a process
whose name carries a trailing `!`, pressing Esc in focus mode exits focus mode
rather than forwarding `\x1b` to the PTY. -/
theorem C6_esc_exits_despite_bang_name :
    appUseInput false true none ["helix!"] 0 "" { noKey with escape := true }
      = AppAction.exitFocusMode ∧
    AppAction.exitFocusMode ≠ AppAction.writeToPty "helix!" "\x1b" := by decide

/-- C6 (amended): in focus mode Esc always exits focus mode; Shift-Tab exits
focus mode unless the process is covered by the `--no-shift-tab` option, in
which case the keypress does nothing (nothing is forwarded: Ink delivers an
empty `input` for the tab key). -/
theorem C6_esc_and_shift_tab (s1 s2 s3 : Option NoShiftTabSetting)
    (names : List String) (sel : Nat) (name : String) (inp : String)
    (k1 k2 k3 : InkKey)
    (hname : names[sel]? = some name)
    (h1c : k1.ctrl = false) (h1e : k1.escape = true)
    (h2c : k2.ctrl = false) (h2e : k2.escape = false)
    (h2s : k2.shift = true) (h2t : k2.tab = true)
    (h2d : isShiftTabDisabled s2 name = false)
    (h3c : k3.ctrl = false) (h3e : k3.escape = false)
    (h3s : k3.shift = true) (h3t : k3.tab = true)
    (h3r : k3.ret = false) (h3u : k3.upArrow = false) (h3d : k3.downArrow = false)
    (h3l : k3.leftArrow = false) (h3rr : k3.rightArrow = false)
    (h3dis : isShiftTabDisabled s3 name = true) :
    appUseInput false true s1 names sel inp k1 = AppAction.exitFocusMode ∧
    appUseInput false true s2 names sel inp k2 = AppAction.exitFocusMode ∧
    appUseInput false true s3 names sel "" k3 = AppAction.nop := by
  refine ⟨?_, ?_, ?_⟩
  · simp [appUseInput, hname, h1c, h1e]
  · simp [appUseInput, hname, h2c, h2e, h2s, h2t, h2d]
  · simp [appUseInput, hname, h3c, h3e, h3s, h3t, h3r, h3u, h3d, h3l, h3rr, h3dis]

/-- C6 witness: concrete keys for all three behaviours. -/
theorem C6_witness :
    appUseInput false true none ["api"] 0 "z" { noKey with escape := true }
      = AppAction.exitFocusMode ∧
    appUseInput false true none ["api"] 0 "z" { noKey with shift := true, tab := true }
      = AppAction.exitFocusMode ∧
    appUseInput false true (some .all) ["api"] 0 "" { noKey with shift := true, tab := true }
      = AppAction.nop :=
  C6_esc_and_shift_tab none none (some .all) ["api"] 0 "api" "z"
    { noKey with escape := true } { noKey with shift := true, tab := true }
    { noKey with shift := true, tab := true }
    rfl rfl rfl rfl rfl rfl rfl rfl rfl rfl rfl rfl rfl rfl rfl rfl rfl rfl

/-! C7: auto-restart scheduling and the absence of cancellation on kill. -/

/-- C7 counterexample: after `start(p)` (auto-restart set), an explicit user
`kill(p)` and the resulting non-zero exit event, a restart timer is scheduled
anyway, and when it fires the process is started again — the explicitly
killed process is restarted by the auto-restart mechanism. -/
theorem C7_explicit_kill_still_restarts :
    (exitEvent (mgrKill (mgrStart mgrInit "p" cfgAR).1 "p").1 0 143).timers
      = [{ name := "p", gen := 0, delayMs := 1000 }] ∧
    getStatus (fireTimer (exitEvent (mgrKill (mgrStart mgrInit "p" cfgAR).1 "p").1 0 143)
        { name := "p", gen := 0, delayMs := 1000 }).1 "p" = PStatus.running := by
  decide

/-- C7 (amended): when a process with `autoRestart` exits with a non-zero
code, a restart is scheduled 1000 ms later; `kill` changes no manager state at
all — in particular it cancels no scheduled restart, so an explicitly killed
auto-restart process is restarted once its (non-zero) exit event arrives. -/
theorem C7_autorestart_schedule_uncancelled (st : MgrState) (g : Nat) (m : MPState)
    (code : Int) (n : String)
    (hm : st.heap[g]? = some m) (ha : m.config.autoRestart = true) (hc : code ≠ 0) :
    (exitEvent st g code).timers
      = st.timers ++ [{ name := m.name, gen := g, delayMs := 1000 }] ∧
    (mgrKill st n).1 = st := by
  constructor
  · unfold exitEvent
    rw [hm]
    have hb : (m.config.autoRestart && (code != 0)) = true := by
      rw [ha]
      simp [hc]
    show (if m.config.autoRestart && (code != 0) then
            st.timers ++ [{ name := m.name, gen := g, delayMs := 1000 }]
          else st.timers)
        = st.timers ++ [{ name := m.name, gen := g, delayMs := 1000 }]
    rw [hb]
    simp
  · exact mgrKill_fst st n

/-- C7 witness: a started auto-restart process exiting with code 1. -/
theorem C7_witness :
    (exitEvent (mgrStart mgrInit "q" cfgAR).1 0 1).timers
      = (mgrStart mgrInit "q" cfgAR).1.timers ++ [{ name := "q", gen := 0, delayMs := 1000 }] ∧
    (mgrKill (mgrStart mgrInit "q" cfgAR).1 "q").1 = (mgrStart mgrInit "q" cfgAR).1 :=
  C7_autorestart_schedule_uncancelled (mgrStart mgrInit "q" cfgAR).1 0
    { name := "q", config := cfgAR, ptyLive := true, status := .running,
      output := [], exitCode := none }
    1 "q" rfl rfl (by decide)

/-! C10: mouse-report filtering of forwarded focus-mode input. -/

/-- C10 counterexample: the source regex makes the leading `\x1b` optional, so
an SGR report arriving without its ESC byte is also removed — on input
`[<1;2;3M` the code forwards nothing, while the claim's pattern (mandatory
`\x1b`) leaves that input intact and would forward it verbatim. -/
theorem C10_escape_optional_in_filter :
    appUseInput false true none ["p"] 0 "[<1;2;3M" noKey = AppAction.nop ∧
    removeMouseSpec "[<1;2;3M" = "[<1;2;3M" := by decide

/-- C10 (amended): for a focus-mode keystroke with no ctrl/meta modifier and
none of the specially handled keys, the handler writes the input with every
`\x1b?[<d;d;d[Mm]` match removed (leading ESC optional), and writes nothing
when the filtered input is empty. -/
theorem C10_mouse_filtered_forwarding (settings : Option NoShiftTabSetting)
    (names : List String) (sel : Nat) (name inp : String) (key : InkKey)
    (hname : names[sel]? = some name)
    (hc : key.ctrl = false) (hm : key.meta = false) (he : key.escape = false)
    (hst : key.shift = false ∨ key.tab = false ∨ isShiftTabDisabled settings name = true)
    (hr : key.ret = false) (hu : key.upArrow = false) (hd : key.downArrow = false)
    (hl : key.leftArrow = false) (hrr : key.rightArrow = false)
    (hip : inp ≠ "") :
    appUseInput false true settings names sel inp key
      = if removeMouse inp = "" then AppAction.nop
        else AppAction.writeToPty name (removeMouse inp) := by
  rcases hst with h | h | h <;> by_cases hrm : removeMouse inp = "" <;>
    simp [appUseInput, hname, hc, hm, he, h, hr, hu, hd, hl, hrr, hip, hrm]

/-- C10 witness: a printable character followed by a wheel-up report forwards
just the character. -/
theorem C10_witness :
    appUseInput false true none ["p"] 0 "x\x1b[<64;45;5M" noKey
      = AppAction.writeToPty "p" "x" := by
  have h := C10_mouse_filtered_forwarding none ["p"] 0 "p" "x\x1b[<64;45;5M" noKey
    rfl rfl rfl rfl (Or.inl rfl) rfl rfl rfl rfl rfl (by decide)
  rw [h]
  decide

/-! C8: ordering of kill and start inside `restartAll`. -/

theorem lookupTable_eq_some_of_mem_keys {A : Type} (t : List (String × A)) (n : String)
    (h : n ∈ t.map Prod.fst) : ∃ v, lookupTable t n = some v := by
  induction t with
  | nil => simp at h
  | cons e rest ih =>
    by_cases he : e.1 = n
    · exact ⟨e.2, by simp [lookupTable, he]⟩
    · have h' : n ∈ e.1 :: rest.map Prod.fst := h
      rcases List.mem_cons.mp h' with h1 | h1
      · exact absurd h1.symm he
      · rcases ih h1 with ⟨v, hv⟩
        exact ⟨v, by simp [lookupTable, he, hv]⟩

theorem mem_of_lookupTable_eq_some {A : Type} (t : List (String × A)) (n : String) (v : A)
    (h : lookupTable t n = some v) : (n, v) ∈ t := by
  induction t with
  | nil => simp [lookupTable] at h
  | cons e rest ih =>
    by_cases he : e.1 = n
    · have h2 : e.2 = v := by simpa [lookupTable, he] using h
      have he2 : e = (n, v) := by
        cases e
        simp_all
      rw [← he2]
      exact List.mem_cons_self e rest
    · exact List.mem_cons_of_mem _ (ih (by simpa [lookupTable, he] using h))

theorem keys_setTable_of_mem {A : Type} (t : List (String × A)) (n : String) (v : A)
    (h : n ∈ t.map Prod.fst) : (setTable t n v).map Prod.fst = t.map Prod.fst := by
  induction t with
  | nil => simp at h
  | cons e rest ih =>
    by_cases he : e.1 = n
    · simp [setTable, he]
    · have h' : n ∈ e.1 :: rest.map Prod.fst := h
      have h1 : n ∈ rest.map Prod.fst := by
        rcases List.mem_cons.mp h' with h1 | h1
        · exact absurd h1.symm he
        · exact h1
      simp [setTable, he, ih h1]

theorem mem_setTable {A : Type} (t : List (String × A)) (k : String) (v : A)
    (e : String × A) (h : e ∈ setTable t k v) : e = (k, v) ∨ e ∈ t := by
  induction t with
  | nil => exact Or.inl (by simpa [setTable] using h)
  | cons f rest ih =>
    by_cases hf : f.1 = k
    · rcases List.mem_cons.mp (by simpa [setTable, hf] using h) with h1 | h1
      · exact Or.inl h1
      · exact Or.inr (List.mem_cons_of_mem _ h1)
    · rcases List.mem_cons.mp (by simpa [setTable, hf] using h) with h1 | h1
      · exact Or.inr (by simp [h1])
      · rcases ih h1 with h2 | h2
        · exact Or.inl h2
        · exact Or.inr (List.mem_cons_of_mem _ h2)

/-- Every map entry points at a heap object with a live PTY handle. -/
def allLive (st : MgrState) : Prop :=
  ∀ e ∈ st.table, ∃ m, st.heap[e.2]? = some m ∧ m.ptyLive = true

theorem mgrStart_snd_live (st : MgrState) (n : String) (c : ProcessConfig) (i : Nat)
    (m : MPState) (hi : lookupTable st.table n = some i) (hm : st.heap[i]? = some m)
    (hlive : m.ptyLive = true) :
    (mgrStart st n c).2 = [PtyAction.killPty n, PtyAction.spawn n] := by
  simp [mgrStart, hi, hm, hlive]

theorem mgrRestart_live (st : MgrState) (n : String)
    (hk : n ∈ st.table.map Prod.fst) (hl : allLive st) :
    (mgrRestart st n).2 = [.killPty n, .killPty n, .spawn n] ∧
    allLive (mgrRestart st n).1 ∧
    (mgrRestart st n).1.table.map Prod.fst = st.table.map Prod.fst := by
  obtain ⟨i, hi⟩ := lookupTable_eq_some_of_mem_keys st.table n hk
  obtain ⟨m, hm0, hlive⟩ := hl (n, i) (mem_of_lookupTable_eq_some _ _ _ hi)
  have hm : st.heap[i]? = some m := hm0
  have hilt : i < st.heap.length := (List.getElem?_eq_some.mp hm).1
  have hm1 : (st.heap.set i { m with output := [] })[i]? = some { m with output := [] } :=
    List.getElem?_set_eq_of_lt _ hilt
  have hre : mgrRestart st n
      = ((mgrStart { st with heap := st.heap.set i { m with output := [] } } n m.config).1,
         [PtyAction.killPty n]
           ++ (mgrStart { st with heap := st.heap.set i { m with output := [] } } n
                 m.config).2) := by
    simp [mgrRestart, hi, hm, hlive]
  have hstart2 := mgrStart_snd_live
    { st with heap := st.heap.set i { m with output := [] } } n m.config i
    { m with output := [] } hi hm1 hlive
  have hnew : (mgrStart { st with heap := st.heap.set i { m with output := [] } } n
        m.config).1
      = { st with
          heap := st.heap.set i { m with output := [] }
            ++ [{ name := n, config := m.config, ptyLive := true, status := .running,
                  output := [], exitCode := none }],
          table := setTable st.table n (st.heap.set i { m with output := [] }).length } :=
    rfl
  refine ⟨?_, ?_, ?_⟩
  · rw [hre]
    simp [hstart2]
  · rw [hre, hnew]
    intro e he
    rcases mem_setTable _ _ _ _ he with he1 | hmem
    · subst he1
      exact ⟨_, List.getElem?_concat_length _ _, rfl⟩
    · obtain ⟨me, hme, hmelive⟩ := hl e hmem
      have helt : e.2 < st.heap.length := (List.getElem?_eq_some.mp hme).1
      have helt2 : e.2 < (st.heap.set i { m with output := [] }).length := by
        simpa using helt
      by_cases hei : e.2 = i
      · refine ⟨{ m with output := [] }, ?_, hlive⟩
        show (st.heap.set i { m with output := [] }
            ++ [{ name := n, config := m.config, ptyLive := true, status := .running,
                  output := [], exitCode := none }])[e.2]? = _
        rw [List.getElem?_append, if_pos helt2, hei, hm1]
      · refine ⟨me, ?_, hmelive⟩
        show (st.heap.set i { m with output := [] }
            ++ [{ name := n, config := m.config, ptyLive := true, status := .running,
                  output := [], exitCode := none }])[e.2]? = _
        rw [List.getElem?_append, if_pos helt2,
          List.getElem?_set_ne (Ne.symm hei), hme]
  · rw [hre, hnew]
    exact keys_setTable_of_mem _ _ _ hk

theorem restartAllGo_trace (names : List String) :
    ∀ st : MgrState, (∀ n ∈ names, n ∈ st.table.map Prod.fst) → allLive st →
    (restartAllGo st names).2
      = names.flatMap fun n => [PtyAction.killPty n, PtyAction.killPty n, PtyAction.spawn n] := by
  induction names with
  | nil => intro st _ _; rfl
  | cons n rest ih =>
    intro st hks hl
    obtain ⟨htr, hl2, hkeys⟩ := mgrRestart_live st n (hks n (by simp)) hl
    show (mgrRestart st n).2 ++ (restartAllGo (mgrRestart st n).1 rest).2 = _
    rw [htr, ih (mgrRestart st n).1
      (fun x hx => hkeys ▸ hks x (List.mem_cons_of_mem _ hx)) hl2]
    simp

/-- C8 counterexample: for two live processes `a` and `b`, `restartAll` emits
kill `a`, (re-)kill `a`, spawn `a`, kill `b`, kill `b`, spawn `b` — the spawn
of `a` precedes the kills of `b`, so the kill phase does not strictly precede
the start phase. -/
theorem C8_trace_not_phase_ordered :
    (restartAll twoProcs).2
      = [PtyAction.killPty "a", PtyAction.killPty "a", PtyAction.spawn "a",
         PtyAction.killPty "b", PtyAction.killPty "b", PtyAction.spawn "b"] ∧
    killPhaseFirst (restartAll twoProcs).2 = false := by decide

/-- C8 (amended): `restartAll` iterates the processes in insertion order and
for each one kills its handle (twice — once in `restart`, once again inside
`start`) and immediately starts it, before touching the next process; kill and
start are interleaved per process rather than phase-ordered. -/
theorem C8_restart_all_interleaves (st : MgrState) (h : allLive st) :
    (restartAll st).2
      = (st.table.map Prod.fst).flatMap
          fun n => [PtyAction.killPty n, PtyAction.killPty n, PtyAction.spawn n] :=
  restartAllGo_trace (st.table.map Prod.fst) st (fun _ hn => hn) h

/-- C8 witness: the two-process manager is all-live, and its restart-all trace
matches the interleaved shape. -/
theorem C8_witness :
    (restartAll twoProcs).2
      = (twoProcs.table.map Prod.fst).flatMap
          fun n => [PtyAction.killPty n, PtyAction.killPty n, PtyAction.spawn n] :=
  C8_restart_all_interleaves twoProcs (by
    intro e he
    have he2 : e = ("a", 0) ∨ e = ("b", 1) := by
      simpa [twoProcs, mgrStart, mgrInit, setTable] using he
    rcases he2 with rfl | rfl
    · exact ⟨_, rfl, rfl⟩
    · exact ⟨_, rfl, rfl⟩)

end Panex
